import Mathlib

/-!
# A shallow embedding of the amaro trie router

This file models the core routing engine of the `buildwithgo/amaro`
repository: the segment-trie route table (`TrieRouter` with `Add` and
`Find` from `routers/trie.go`), the middleware compiler (`Compile` from
`amaro.go`), and the parameter sink operations (`Context.AddParam` and
`Context.PathParam` from `context.go`).

Go strings are modelled as `List Char`; Go maps keyed by strings are
modelled as association lists with unique keys (`alistGet` / `alistSet`);
Go's nil-able `Handler` function field is modelled as `Option H` for an
abstract handler type `H`; Go `error` results are modelled as
`Except (List Char) _` carrying the exact message the source builds with
`fmt.Errorf`.
-/

namespace Amaro

/-- One URL parameter, source: `type Param struct { Key, Value string }`. -/
structure Param where
  key : List Char
  value : List Char
deriving DecidableEq, Repr

/-- `Context.AddParam`: `c.Params = append(c.Params, Param{Key: key, Value: value})`. -/
def AddParam (ps : List Param) (k v : List Char) : List Param :=
  ps ++ [⟨k, v⟩]

/-- `Context.PathParam`: scan `c.Params` in order, return the first value whose
key matches, `""` when none does. -/
def PathParam : List Param → List Char → List Char
  | [], _ => []
  | p :: rest, name => if p.key = name then p.value else PathParam rest name

/-- `amaro.Compile`: `for i := len(middlewares) - 1; i >= 0; i-- { handler =
middlewares[i](handler) }` — a right fold wrapping the terminal handler. -/
def Compile {H : Type} (handler : H) (middlewares : List (H → H)) : H :=
  middlewares.foldr (fun m h => m h) handler

/-- `amaro.Route`: `Method`, `Path`, `Handler` (nil-able), `Middlewares`. -/
structure Route (H : Type) where
  method : String
  path : List Char
  handler : Option H
  middlewares : List (H → H)

/-- A trie node, source `type node struct` in `routers/trie.go`: static
children map, at most one param child with its recorded name, at most one
catch-all child with its recorded name, and an embedded `amaro.Route`. -/
inductive Node (H : Type) : Type where
  | mk (children : List (List Char × Node H))
      (paramNode : Option (Node H)) (paramName : List Char)
      (catchAllNode : Option (Node H)) (catchAllName : List Char)
      (route : Route H) : Node H

namespace Node

def children {H : Type} : Node H → List (List Char × Node H)
  | .mk c _ _ _ _ _ => c

def paramNode {H : Type} : Node H → Option (Node H)
  | .mk _ p _ _ _ _ => p

def paramName {H : Type} : Node H → List Char
  | .mk _ _ pn _ _ _ => pn

def catchAllNode {H : Type} : Node H → Option (Node H)
  | .mk _ _ _ c _ _ => c

def catchAllName {H : Type} : Node H → List Char
  | .mk _ _ _ _ cn _ => cn

def route {H : Type} : Node H → Route H
  | .mk _ _ _ _ _ r => r

/-- Overwrite the node's embedded route record (the final assignments
`n.Handler = …; n.Middlewares = …; n.Path = …; n.Method = …` of `Add`). -/
def setRoute {H : Type} : Node H → Route H → Node H
  | .mk ch pn pnm ca can _, r => .mk ch pn pnm ca can r

def withParamNode {H : Type} : Node H → Option (Node H) → List Char → Node H
  | .mk ch _ _ ca can r, p, nm => .mk ch p nm ca can r

def withCatchAllNode {H : Type} : Node H → Option (Node H) → List Char → Node H
  | .mk ch pn pnm _ _ r, c, nm => .mk ch pn pnm c nm r

def withChildren {H : Type} : Node H → List (List Char × Node H) → Node H
  | .mk _ pn pnm ca can r, ch => .mk ch pn pnm ca can r

end Node

/-- The zero value of the embedded `amaro.Route` in a freshly created node. -/
def emptyRoute (H : Type) : Route H := ⟨"", [], none, []⟩

/-- `&node{children: make(map[string]*node)}`. -/
def emptyNode (H : Type) : Node H :=
  .mk [] none [] none [] (emptyRoute H)

/-- First-match lookup in an association list (a Go map read). -/
def alistGet {α β : Type} [DecidableEq α] : List (α × β) → α → Option β
  | [], _ => none
  | (k, v) :: rest, a => if k = a then some v else alistGet rest a

/-- Key update in an association list (a Go map write); keys stay unique. -/
def alistSet {α β : Type} [DecidableEq α] : List (α × β) → α → β → List (α × β)
  | [], a, b => [(a, b)]
  | (k, v) :: rest, a, b =>
    if k = a then (a, b) :: rest else (k, v) :: alistSet rest a b

/-- `TrieRouterConfig`: `ParamStart` byte (0 disables the check), and the
bracket pair `ParamPrefix`/`ParamSuffix` for the `{name}` syntax. -/
structure TrieRouterConfig where
  paramStart : Char
  paramPre : List Char
  paramSuf : List Char

/-- `DefaultTrieRouterConfig()`: `':'`, `"{"`, `"}"`. -/
def DefaultTrieRouterConfig : TrieRouterConfig :=
  ⟨':', ['{'], ['}']⟩

/-- The param-detection block of `Add`: a part starting with `ParamStart`
is a parameter named by the remainder; otherwise a part wrapped in
`ParamPrefix`/`ParamSuffix` is a parameter named by the inner text;
otherwise not a parameter. -/
def classifyParam (cfg : TrieRouterConfig) (part : List Char) : Option (List Char) :=
  if cfg.paramStart ≠ Char.ofNat 0 ∧ part.head? = some cfg.paramStart then
    some part.tail
  else if cfg.paramPre ≠ [] ∧ cfg.paramSuf ≠ [] ∧
      cfg.paramPre.isPrefixOf part ∧ cfg.paramSuf.isSuffixOf part then
    some ((part.drop cfg.paramPre.length).take
      (part.length - cfg.paramSuf.length - cfg.paramPre.length))
  else none

/-- `fmt.Errorf("param name conflict: %s vs %s", n.paramName, paramName)`. -/
def paramConflictMsg (existing requested : List Char) : List Char :=
  "param name conflict: ".toList ++ existing ++ " vs ".toList ++ requested

/-- `fmt.Errorf("wildcard name conflict: %s vs %s", n.catchAllName, wName)`. -/
def wildcardConflictMsg (existing requested : List Char) : List Char :=
  "wildcard name conflict: ".toList ++ existing ++ " vs ".toList ++ requested

/-- `fmt.Errorf("method not found")`. -/
def methodNotFoundMsg : List Char := "method not found".toList

/-- `fmt.Errorf("route not found")`. -/
def routeNotFoundMsg : List Char := "route not found".toList

/-- The per-segment walk of `Add`: skip empty parts; a param part reuses or
creates the single param child, conflicting names abort the registration;
a `*` part does the same with the catch-all child; anything else reuses or
creates a static child; the final route record is stored on the node
reached after the last part. -/
def insertParts {H : Type} (cfg : TrieRouterConfig) :
    Node H → List (List Char) → Route H → Except (List Char) (Node H)
  | n, [], r => .ok (n.setRoute r)
  | n, part :: rest, r =>
    if part = [] then insertParts cfg n rest r
    else
      match classifyParam cfg part with
      | some pname =>
        match n.paramNode with
        | none =>
          match insertParts cfg (emptyNode H) rest r with
          | .error e => .error e
          | .ok child => .ok (n.withParamNode (some child) pname)
        | some p =>
          if n.paramName = pname then
            match insertParts cfg p rest r with
            | .error e => .error e
            | .ok child => .ok (n.withParamNode (some child) n.paramName)
          else .error (paramConflictMsg n.paramName pname)
      | none =>
        if part.head? = some '*' then
          match n.catchAllNode with
          | none =>
            match insertParts cfg (emptyNode H) rest r with
            | .error e => .error e
            | .ok child => .ok (n.withCatchAllNode (some child) part.tail)
          | some c =>
            if n.catchAllName = part.tail then
              match insertParts cfg c rest r with
              | .error e => .error e
              | .ok child => .ok (n.withCatchAllNode (some child) n.catchAllName)
            else .error (wildcardConflictMsg n.catchAllName part.tail)
        else
          let child0 := (alistGet n.children part).getD (emptyNode H)
          match insertParts cfg child0 rest r with
          | .error e => .error e
          | .ok child => .ok (n.withChildren (alistSet n.children part child))

/-- `strings.Trim(path, "/")`: drop every leading and trailing slash. -/
def trimSlashes (s : List Char) : List Char :=
  ((s.dropWhile (· = '/')).reverse.dropWhile (· = '/')).reverse

/-- `strings.Split(s, "/")`: split on `'/'`, keeping empty pieces. -/
def splitOnSlash : List Char → List (List Char)
  | [] => [[]]
  | c :: cs =>
    if c = '/' then [] :: splitOnSlash cs
    else
      match splitOnSlash cs with
      | [] => [[c]]
      | p :: rest => (c :: p) :: rest

/-- `Add`'s path normalization: `""` becomes `"/"`, then a missing leading
slash is added; the stored `route.Path` is this normalized string. -/
def normalizePath (path : List Char) : List Char :=
  let p1 := if path = [] then ['/'] else path
  if p1.head? = some '/' then p1 else '/' :: p1

/-- The parts `Add` walks: trim all outer slashes, and split on `'/'`
unless nothing is left. -/
def normalizeParts (path : List Char) : List (List Char) :=
  let sp := trimSlashes (normalizePath path)
  if sp = [] then [] else splitOnSlash sp

/-- `TrieRouter`: one trie root per method string, the router-level
middleware list, and the parameter-syntax configuration. -/
structure TrieRouter (H : Type) where
  root : List (String × Node H)
  globalMiddlewares : List (H → H)
  config : TrieRouterConfig

/-- `NewTrieRouter()` with no options. -/
def NewTrieRouter (H : Type) : TrieRouter H :=
  ⟨[], [], DefaultTrieRouterConfig⟩

/-- `TrieRouter.Use`: append one router-level middleware. -/
def Use {H : Type} (r : TrieRouter H) (m : H → H) : TrieRouter H :=
  { r with globalMiddlewares := r.globalMiddlewares ++ [m] }

/-- The middleware list `Add` actually compiles: router-level middlewares
prepended to the route-specific ones (when any router-level ones exist). -/
def combinedMiddlewares {H : Type} (r : TrieRouter H) (mws : List (H → H)) :
    List (H → H) :=
  if r.globalMiddlewares.isEmpty then mws else r.globalMiddlewares ++ mws

/-- The route record `Add` stores on the terminal node: method, normalized
path, the handler wrapped by `Compile` when the middleware list is
non-empty, and that middleware list. -/
def routeFor {H : Type} (r : TrieRouter H) (method : String) (path : List Char)
    (handler : H) (mws : List (H → H)) : Route H :=
  let combined := combinedMiddlewares r mws
  ⟨method, normalizePath path,
    some (if combined.isEmpty then handler else Compile handler combined), combined⟩

/-- The method's root trie, a fresh empty node when the method is new
(`r.root[method] = &node{…}` on first use). -/
def trieOf {H : Type} (r : TrieRouter H) (method : String) : Node H :=
  (alistGet r.root method).getD (emptyNode H)

/-- `TrieRouter.Add`: walk/extend the method trie along the normalized
parts and store the compiled route on the terminal node; a param or
wildcard name conflict aborts with the conflict error. -/
def Add {H : Type} (r : TrieRouter H) (method : String) (path : List Char)
    (handler : H) (mws : List (H → H)) : Except (List Char) (TrieRouter H) :=
  match insertParts r.config (trieOf r method) (normalizeParts path)
      (routeFor r method path handler mws) with
  | .error e => .error e
  | .ok n => .ok { r with root := alistSet r.root method n }

/-- One step of `Find`'s in-place segment iteration: `part` is the text up
to the first `'/'` (`strings.IndexByte`), the remainder is everything after
that slash (`""` when there is none). -/
def takePart : List Char → List Char × List Char
  | [] => ([], [])
  | c :: cs =>
    if c = '/' then ([], cs)
    else
      let pr := takePart cs
      (c :: pr.1, pr.2)

theorem takePart_snd_le (s : List Char) : (takePart s).2.length ≤ s.length := by
  induction s with
  | nil => simp [takePart]
  | cons c cs ih =>
    by_cases h : c = '/'
    · simp [takePart, h]
    · simp [takePart, h]
      omega

theorem takePart_snd_lt (c : Char) (cs : List Char) :
    (takePart (c :: cs)).2.length < (c :: cs).length := by
  by_cases h : c = '/'
  · simp [takePart, h]
  · have := takePart_snd_le cs
    simp [takePart, h]
    omega

/-- The `len(searchPath) == 0` branch of `Find`'s loop: the current node's
own route if it has a handler; otherwise, if a catch-all child exists, an
empty capture is appended and that child's route is returned when it has a
handler; otherwise `route not found`. -/
def findTerminal {H : Type} (n : Node H) (ctx : List Param) :
    Except (List Char) (Route H) × List Param :=
  if n.route.handler.isSome then (.ok n.route, ctx)
  else
    match n.catchAllNode with
    | some c =>
      let ctx' := AddParam ctx n.catchAllName []
      if c.route.handler.isSome then (.ok c.route, ctx')
      else (.error routeNotFoundMsg, ctx')
    | none => (.error routeNotFoundMsg, ctx)

/-- The catch-all branch of `Find`'s loop: capture the current part joined
by `'/'` to the raw unconsumed remainder, then return the catch-all child's
own route — or `route not found` when that child carries no handler. The
walk never continues past this point. -/
def findCatchAll {H : Type} (n ca : Node H) (part rest : List Char)
    (ctx : List Param) : Except (List Char) (Route H) × List Param :=
  let value := if rest.isEmpty then part else part ++ '/' :: rest
  let ctx' := AddParam ctx n.catchAllName value
  if ca.route.handler.isSome then (.ok ca.route, ctx')
  else (.error routeNotFoundMsg, ctx')

/-- The main loop of `Find`: consume one part at a time from the raw
remaining path, with the fixed priority static child, then param child,
then catch-all child; empty parts are skipped. -/
def findLoop {H : Type} (n : Node H) (s : List Char) (ctx : List Param) :
    Except (List Char) (Route H) × List Param :=
  match s with
  | [] => findTerminal n ctx
  | c0 :: cs =>
    let pr := takePart (c0 :: cs)
    if pr.1 = [] then findLoop n pr.2 ctx
    else
      match alistGet n.children pr.1 with
      | some child => findLoop child pr.2 ctx
      | none =>
        match n.paramNode with
        | some p => findLoop p pr.2 (AddParam ctx n.paramName pr.1)
        | none =>
          match n.catchAllNode with
          | some ca => findCatchAll n ca pr.1 pr.2 ctx
          | none => (.error routeNotFoundMsg, ctx)
termination_by s.length
decreasing_by all_goals exact takePart_snd_lt _ _

/-- `Find`'s path preparation: strip one leading `'/'` if present, then one
trailing `'/'` if present. -/
def stripOnce (path : List Char) : List Char :=
  let s1 := if path.head? = some '/' then path.tail else path
  if s1.getLast? = some '/' then s1.dropLast else s1

/-- `TrieRouter.Find`: look up the method root (failing with `method not
found`), strip one leading and one trailing slash, then run the loop. -/
def Find {H : Type} (r : TrieRouter H) (method : String) (path : List Char)
    (ctx : List Param) : Except (List Char) (Route H) × List Param :=
  match alistGet r.root method with
  | none => (.error methodNotFoundMsg, ctx)
  | some n => findLoop n (stripOnce path) ctx

/-- Inverse of `splitOnSlash`: re-join pieces with `'/'`. -/
def joinSlash : List (List Char) → List Char
  | [] => []
  | [p] => p
  | p :: rest => p ++ '/' :: joinSlash rest

/-- `Find`'s loop re-expressed over the list of `'/'`-separated pieces of
the remaining path; the catch-all capture re-joins the unconsumed pieces.
`findLoop_eq_findParts` proves it equal to the in-place iteration. -/
def findParts {H : Type} :
    Node H → List (List Char) → List Param → Except (List Char) (Route H) × List Param
  | n, [], ctx => findTerminal n ctx
  | n, part :: remaining, ctx =>
    if part = [] then findParts n remaining ctx
    else
      match alistGet n.children part with
      | some child => findParts child remaining ctx
      | none =>
        match n.paramNode with
        | some p => findParts p remaining (AddParam ctx n.paramName part)
        | none =>
          match n.catchAllNode with
          | some ca => findCatchAll n ca part (joinSlash remaining) ctx
          | none => (.error routeNotFoundMsg, ctx)

theorem findLoop_nil {H : Type} (n : Node H) (ctx : List Param) :
    findLoop n [] ctx = findTerminal n ctx := by
  rw [findLoop]

theorem findLoop_cons {H : Type} (n : Node H) (c : Char) (cs : List Char)
    (ctx : List Param) :
    findLoop n (c :: cs) ctx =
      (if (takePart (c :: cs)).1 = [] then findLoop n (takePart (c :: cs)).2 ctx
      else
        match alistGet n.children (takePart (c :: cs)).1 with
        | some child => findLoop child (takePart (c :: cs)).2 ctx
        | none =>
          match n.paramNode with
          | some p =>
            findLoop p (takePart (c :: cs)).2
              (AddParam ctx n.paramName (takePart (c :: cs)).1)
          | none =>
            match n.catchAllNode with
            | some ca => findCatchAll n ca (takePart (c :: cs)).1 (takePart (c :: cs)).2 ctx
            | none => (.error routeNotFoundMsg, ctx)) := by
  rw [findLoop]

theorem splitOnSlash_ne_nil (s : List Char) : splitOnSlash s ≠ [] := by
  cases s with
  | nil => simp [splitOnSlash]
  | cons c cs =>
    by_cases h : c = '/'
    · simp [splitOnSlash, h]
    · simp only [splitOnSlash, h, if_false]
      cases splitOnSlash cs <;> simp

theorem joinSlash_cons (p : List Char) (X : List (List Char)) (h : X ≠ []) :
    joinSlash (p :: X) = p ++ '/' :: joinSlash X := by
  cases X with
  | nil => exact absurd rfl h
  | cons q rest => rfl

theorem splitOnSlash_cons_slash (cs : List Char) :
    splitOnSlash ('/' :: cs) = [] :: splitOnSlash cs := by
  simp [splitOnSlash]

theorem splitOnSlash_cons_ne (c : Char) (cs p : List Char)
    (rest : List (List Char)) (h : ¬ c = '/') (hsp : splitOnSlash cs = p :: rest) :
    splitOnSlash (c :: cs) = (c :: p) :: rest := by
  simp only [splitOnSlash]
  rw [if_neg h, hsp]

theorem joinSlash_splitOnSlash (s : List Char) :
    joinSlash (splitOnSlash s) = s := by
  induction s with
  | nil => rfl
  | cons c cs ih =>
    by_cases h : c = '/'
    · subst h
      rw [splitOnSlash_cons_slash,
        joinSlash_cons [] _ (splitOnSlash_ne_nil cs), ih]
      rfl
    · match hsp : splitOnSlash cs with
      | [] => exact absurd hsp (splitOnSlash_ne_nil cs)
      | p :: rest =>
        rw [splitOnSlash_cons_ne c cs p rest h hsp]
        rw [hsp] at ih
        cases rest with
        | nil =>
          simp only [joinSlash] at ih ⊢
          rw [ih]
        | cons q rest' =>
          rw [joinSlash_cons _ _ (by simp)]
          rw [joinSlash_cons _ _ (by simp)] at ih
          rw [List.cons_append, ih]

theorem takePart_fst_cons_ne (c : Char) (cs : List Char) (h : ¬ c = '/') :
    (takePart (c :: cs)).1 = c :: (takePart cs).1 := by
  simp [takePart, h]

theorem takePart_snd_cons_ne (c : Char) (cs : List Char) (h : ¬ c = '/') :
    (takePart (c :: cs)).2 = (takePart cs).2 := by
  simp [takePart, h]

theorem splitOnSlash_step (c : Char) (cs : List Char) :
    splitOnSlash (c :: cs) =
      (takePart (c :: cs)).1 ::
        (if '/' ∈ (c :: cs) then splitOnSlash (takePart (c :: cs)).2 else []) := by
  induction cs generalizing c with
  | nil =>
    by_cases h : c = '/'
    · subst h
      simp [splitOnSlash, takePart]
    · simp [splitOnSlash, takePart, h, Ne.symm h]
  | cons d ds ih =>
    by_cases h : c = '/'
    · subst h
      rw [splitOnSlash_cons_slash]
      simp [takePart]
    · have hstep := splitOnSlash_cons_ne c (d :: ds) _ _ h (ih d)
      rw [hstep, takePart_fst_cons_ne c _ h, takePart_snd_cons_ne c _ h]
      by_cases hd : '/' ∈ d :: ds
      · rw [if_pos hd, if_pos (List.mem_cons_of_mem _ hd)]
      · have hd2 : '/' ∉ c :: d :: ds := by
          intro hmem2
          rcases List.mem_cons.mp hmem2 with h1 | h2
          · exact h h1.symm
          · exact hd h2
        rw [if_neg hd, if_neg hd2]

theorem takePart_snd_of_no_slash (s : List Char) (h : ¬ '/' ∈ s) :
    (takePart s).2 = [] := by
  induction s with
  | nil => rfl
  | cons c cs ih =>
    simp only [List.mem_cons, not_or] at h
    have hc : ¬ c = '/' := fun hh => h.1 hh.symm
    simp [takePart, hc, ih h.2]

theorem findParts_cons {H : Type} (n : Node H) (part : List Char)
    (remaining : List (List Char)) (ctx : List Param) :
    findParts n (part :: remaining) ctx =
      if part = [] then findParts n remaining ctx
      else
        match alistGet n.children part with
        | some child => findParts child remaining ctx
        | none =>
          match n.paramNode with
          | some p => findParts p remaining (AddParam ctx n.paramName part)
          | none =>
            match n.catchAllNode with
            | some ca => findCatchAll n ca part (joinSlash remaining) ctx
            | none => (.error routeNotFoundMsg, ctx) := rfl

/-- The in-place iteration of `Find` computes the same result as the
pieces-based walk over `splitOnSlash` of the remaining path. -/
theorem findLoop_eq_findParts {H : Type} (s : List Char) (n : Node H)
    (ctx : List Param) : findLoop n s ctx = findParts n (splitOnSlash s) ctx := by
  suffices h : ∀ (len : Nat) (s : List Char) (n : Node H) (ctx : List Param),
      s.length ≤ len → findLoop n s ctx = findParts n (splitOnSlash s) ctx by
    exact h s.length s n ctx le_rfl
  intro len
  induction len with
  | zero =>
    intro s n ctx hle
    have : s = [] := List.eq_nil_of_length_eq_zero (Nat.le_zero.mp hle)
    subst this
    rw [findLoop_nil]
    rfl
  | succ k ih =>
    intro s n ctx hle
    match s with
    | [] =>
      rw [findLoop_nil]
      rfl
    | c :: cs =>
      have hrec : (takePart (c :: cs)).2.length ≤ k := by
        have := takePart_snd_lt c cs
        simp only [List.length_cons] at this hle
        omega
      have hbranch : ∀ (X : Node H) (ctx' : List Param),
          findLoop X (takePart (c :: cs)).2 ctx' =
            findParts X
              (if '/' ∈ (c :: cs) then splitOnSlash (takePart (c :: cs)).2 else [])
              ctx' := by
        intro X ctx'
        by_cases hmem : '/' ∈ (c :: cs)
        · rw [if_pos hmem]
          exact ih _ X ctx' hrec
        · rw [if_neg hmem, takePart_snd_of_no_slash _ hmem, findLoop_nil]
          rfl
      have hjoin :
          joinSlash
            (if '/' ∈ (c :: cs) then splitOnSlash (takePart (c :: cs)).2 else []) =
            (takePart (c :: cs)).2 := by
        by_cases hmem : '/' ∈ (c :: cs)
        · rw [if_pos hmem, joinSlash_splitOnSlash]
        · rw [if_neg hmem, takePart_snd_of_no_slash _ hmem]
          rfl
      rw [findLoop_cons, splitOnSlash_step, findParts_cons]
      by_cases hp : (takePart (c :: cs)).1 = []
      · rw [if_pos hp, if_pos hp, hbranch n ctx]
      · rw [if_neg hp, if_neg hp]
        cases halist : alistGet n.children (takePart (c :: cs)).1 with
        | some child =>
          simp only [halist]
          exact hbranch child ctx
        | none =>
          simp only [halist]
          cases hparam : n.paramNode with
          | some p =>
            simp only [hparam]
            exact hbranch p _
          | none =>
            simp only [hparam]
            cases hca : n.catchAllNode with
            | some ca => simp only [hca, hjoin]
            | none => simp only [hca]

/-- `Find` with its loop replaced by the pieces-based walk; used to
evaluate `Find` on concrete inputs through `Find_eq_FindParts`. -/
def FindParts {H : Type} (r : TrieRouter H) (method : String) (path : List Char)
    (ctx : List Param) : Except (List Char) (Route H) × List Param :=
  match alistGet r.root method with
  | none => (.error methodNotFoundMsg, ctx)
  | some n => findParts n (splitOnSlash (stripOnce path)) ctx

theorem Find_eq_FindParts {H : Type} (r : TrieRouter H) (method : String)
    (path : List Char) (ctx : List Param) :
    Find r method path ctx = FindParts r method path ctx := by
  unfold Find FindParts
  cases alistGet r.root method with
  | none => rfl
  | some n => exact findLoop_eq_findParts _ n ctx

@[simp] theorem setRoute_children {H : Type} (n : Node H) (r : Route H) :
    (n.setRoute r).children = n.children := by cases n; rfl

@[simp] theorem setRoute_paramNode {H : Type} (n : Node H) (r : Route H) :
    (n.setRoute r).paramNode = n.paramNode := by cases n; rfl

@[simp] theorem setRoute_paramName {H : Type} (n : Node H) (r : Route H) :
    (n.setRoute r).paramName = n.paramName := by cases n; rfl

@[simp] theorem setRoute_catchAllNode {H : Type} (n : Node H) (r : Route H) :
    (n.setRoute r).catchAllNode = n.catchAllNode := by cases n; rfl

@[simp] theorem setRoute_catchAllName {H : Type} (n : Node H) (r : Route H) :
    (n.setRoute r).catchAllName = n.catchAllName := by cases n; rfl

@[simp] theorem setRoute_route {H : Type} (n : Node H) (r : Route H) :
    (n.setRoute r).route = r := by cases n; rfl

@[simp] theorem withParamNode_children {H : Type} (n : Node H) (p : Option (Node H))
    (nm : List Char) : (n.withParamNode p nm).children = n.children := by cases n; rfl

@[simp] theorem withParamNode_paramNode {H : Type} (n : Node H) (p : Option (Node H))
    (nm : List Char) : (n.withParamNode p nm).paramNode = p := by cases n; rfl

@[simp] theorem withParamNode_paramName {H : Type} (n : Node H) (p : Option (Node H))
    (nm : List Char) : (n.withParamNode p nm).paramName = nm := by cases n; rfl

@[simp] theorem withParamNode_catchAllNode {H : Type} (n : Node H) (p : Option (Node H))
    (nm : List Char) : (n.withParamNode p nm).catchAllNode = n.catchAllNode := by
  cases n; rfl

@[simp] theorem withParamNode_catchAllName {H : Type} (n : Node H) (p : Option (Node H))
    (nm : List Char) : (n.withParamNode p nm).catchAllName = n.catchAllName := by
  cases n; rfl

@[simp] theorem withParamNode_route {H : Type} (n : Node H) (p : Option (Node H))
    (nm : List Char) : (n.withParamNode p nm).route = n.route := by cases n; rfl

@[simp] theorem withCatchAllNode_children {H : Type} (n : Node H) (c : Option (Node H))
    (nm : List Char) : (n.withCatchAllNode c nm).children = n.children := by cases n; rfl

@[simp] theorem withCatchAllNode_paramNode {H : Type} (n : Node H) (c : Option (Node H))
    (nm : List Char) : (n.withCatchAllNode c nm).paramNode = n.paramNode := by
  cases n; rfl

@[simp] theorem withCatchAllNode_paramName {H : Type} (n : Node H) (c : Option (Node H))
    (nm : List Char) : (n.withCatchAllNode c nm).paramName = n.paramName := by
  cases n; rfl

@[simp] theorem withCatchAllNode_catchAllNode {H : Type} (n : Node H)
    (c : Option (Node H)) (nm : List Char) :
    (n.withCatchAllNode c nm).catchAllNode = c := by cases n; rfl

@[simp] theorem withCatchAllNode_catchAllName {H : Type} (n : Node H)
    (c : Option (Node H)) (nm : List Char) :
    (n.withCatchAllNode c nm).catchAllName = nm := by cases n; rfl

@[simp] theorem withCatchAllNode_route {H : Type} (n : Node H) (c : Option (Node H))
    (nm : List Char) : (n.withCatchAllNode c nm).route = n.route := by cases n; rfl

@[simp] theorem withChildren_children {H : Type} (n : Node H)
    (ch : List (List Char × Node H)) : (n.withChildren ch).children = ch := by
  cases n; rfl

@[simp] theorem withChildren_paramNode {H : Type} (n : Node H)
    (ch : List (List Char × Node H)) : (n.withChildren ch).paramNode = n.paramNode := by
  cases n; rfl

@[simp] theorem withChildren_paramName {H : Type} (n : Node H)
    (ch : List (List Char × Node H)) : (n.withChildren ch).paramName = n.paramName := by
  cases n; rfl

@[simp] theorem withChildren_catchAllNode {H : Type} (n : Node H)
    (ch : List (List Char × Node H)) :
    (n.withChildren ch).catchAllNode = n.catchAllNode := by cases n; rfl

@[simp] theorem withChildren_catchAllName {H : Type} (n : Node H)
    (ch : List (List Char × Node H)) :
    (n.withChildren ch).catchAllName = n.catchAllName := by cases n; rfl

@[simp] theorem withChildren_route {H : Type} (n : Node H)
    (ch : List (List Char × Node H)) : (n.withChildren ch).route = n.route := by
  cases n; rfl

@[simp] theorem alistGet_set_self {α β : Type} [DecidableEq α]
    (l : List (α × β)) (k : α) (v : β) : alistGet (alistSet l k v) k = some v := by
  induction l with
  | nil => simp [alistGet, alistSet]
  | cons kv rest ih =>
    by_cases h : kv.1 = k
    · simp [alistGet, alistSet, h]
    · simpa [alistGet, alistSet, h] using ih

@[simp] theorem alistSet_set_self {α β : Type} [DecidableEq α]
    (l : List (α × β)) (k : α) (a b : β) :
    alistSet (alistSet l k a) k b = alistSet l k b := by
  induction l with
  | nil => simp [alistSet]
  | cons kv rest ih =>
    by_cases h : kv.1 = k
    · simp [alistSet, h]
    · simpa [alistSet, h] using ih

theorem insertParts_nil {H : Type} (cfg : TrieRouterConfig) (n : Node H)
    (r : Route H) : insertParts cfg n [] r = .ok (n.setRoute r) := rfl

theorem insertParts_cons {H : Type} (cfg : TrieRouterConfig) (n : Node H)
    (part : List Char) (rest : List (List Char)) (r : Route H) :
    insertParts cfg n (part :: rest) r =
      (if part = [] then insertParts cfg n rest r
      else
        match classifyParam cfg part with
        | some pname =>
          match n.paramNode with
          | none =>
            match insertParts cfg (emptyNode H) rest r with
            | .error e => .error e
            | .ok child => .ok (n.withParamNode (some child) pname)
          | some p =>
            if n.paramName = pname then
              match insertParts cfg p rest r with
              | .error e => .error e
              | .ok child => .ok (n.withParamNode (some child) n.paramName)
            else .error (paramConflictMsg n.paramName pname)
        | none =>
          if part.head? = some '*' then
            match n.catchAllNode with
            | none =>
              match insertParts cfg (emptyNode H) rest r with
              | .error e => .error e
              | .ok child => .ok (n.withCatchAllNode (some child) part.tail)
            | some c =>
              if n.catchAllName = part.tail then
                match insertParts cfg c rest r with
                | .error e => .error e
                | .ok child => .ok (n.withCatchAllNode (some child) n.catchAllName)
              else .error (wildcardConflictMsg n.catchAllName part.tail)
          else
            match insertParts cfg ((alistGet n.children part).getD (emptyNode H)) rest r with
            | .error e => .error e
            | .ok child => .ok (n.withChildren (alistSet n.children part child))) := rfl

/-- Re-walk the branches an insertion follows and replace only the terminal
node's stored route; it creates no node, so it expresses "the second
registration of the same path changes nothing but the terminal route". -/
def setRouteAt {H : Type} (cfg : TrieRouterConfig) :
    Node H → List (List Char) → Route H → Node H
  | n, [], r => n.setRoute r
  | n, part :: rest, r =>
    if part = [] then setRouteAt cfg n rest r
    else
      match classifyParam cfg part with
      | some _ =>
        match n.paramNode with
        | some p => n.withParamNode (some (setRouteAt cfg p rest r)) n.paramName
        | none => n
      | none =>
        if part.head? = some '*' then
          match n.catchAllNode with
          | some c => n.withCatchAllNode (some (setRouteAt cfg c rest r)) n.catchAllName
          | none => n
        else
          match alistGet n.children part with
          | some child =>
            n.withChildren (alistSet n.children part (setRouteAt cfg child rest r))
          | none => n

theorem setRouteAt_cons {H : Type} (cfg : TrieRouterConfig) (n : Node H)
    (part : List Char) (rest : List (List Char)) (r : Route H) :
    setRouteAt cfg n (part :: rest) r =
      (if part = [] then setRouteAt cfg n rest r
      else
        match classifyParam cfg part with
        | some _ =>
          match n.paramNode with
          | some p => n.withParamNode (some (setRouteAt cfg p rest r)) n.paramName
          | none => n
        | none =>
          if part.head? = some '*' then
            match n.catchAllNode with
            | some c => n.withCatchAllNode (some (setRouteAt cfg c rest r)) n.catchAllName
            | none => n
          else
            match alistGet n.children part with
            | some child =>
              n.withChildren (alistSet n.children part (setRouteAt cfg child rest r))
            | none => n) := rfl

/-- Read the route stored at the node the insertion walk for these parts
reaches (when that walk exists in the trie). -/
def getRouteAt {H : Type} (cfg : TrieRouterConfig) :
    Node H → List (List Char) → Option (Route H)
  | n, [] => some n.route
  | n, part :: rest =>
    if part = [] then getRouteAt cfg n rest
    else
      match classifyParam cfg part with
      | some _ =>
        match n.paramNode with
        | some p => getRouteAt cfg p rest
        | none => none
      | none =>
        if part.head? = some '*' then
          match n.catchAllNode with
          | some c => getRouteAt cfg c rest
          | none => none
        else
          match alistGet n.children part with
          | some child => getRouteAt cfg child rest
          | none => none

theorem getRouteAt_cons {H : Type} (cfg : TrieRouterConfig) (n : Node H)
    (part : List Char) (rest : List (List Char)) :
    getRouteAt cfg n (part :: rest) =
      (if part = [] then getRouteAt cfg n rest
      else
        match classifyParam cfg part with
        | some _ =>
          match n.paramNode with
          | some p => getRouteAt cfg p rest
          | none => none
        | none =>
          if part.head? = some '*' then
            match n.catchAllNode with
            | some c => getRouteAt cfg c rest
            | none => none
          else
            match alistGet n.children part with
            | some child => getRouteAt cfg child rest
            | none => none) := rfl

/-- Re-inserting along parts that were just inserted succeeds and only
replaces the terminal node's stored route: the walk finds every branch it
needs already present, with matching param/wildcard names. -/
theorem insertParts_again {H : Type} (cfg : TrieRouterConfig) :
    ∀ (parts : List (List Char)) (n n1 : Node H) (r1 r2 : Route H),
      insertParts cfg n parts r1 = .ok n1 →
      insertParts cfg n1 parts r2 = .ok (setRouteAt cfg n1 parts r2) := by
  intro parts
  induction parts with
  | nil => intro n n1 r1 r2 _; rfl
  | cons part rest ih =>
    intro n n1 r1 r2 h
    by_cases hp : part = []
    · rw [insertParts_cons, if_pos hp] at h
      rw [insertParts_cons, if_pos hp, setRouteAt_cons, if_pos hp]
      exact ih n n1 r1 r2 h
    · rw [insertParts_cons, if_neg hp] at h
      rw [insertParts_cons, if_neg hp, setRouteAt_cons, if_neg hp]
      cases hcl : classifyParam cfg part with
      | some pname =>
        simp only [hcl] at h ⊢
        cases hpn : n.paramNode with
        | none =>
          simp only [hpn] at h
          cases hrec : insertParts cfg (emptyNode H) rest r1 with
          | error e =>
            simp only [hrec] at h
            exact Except.noConfusion h
          | ok child =>
            simp only [hrec] at h
            injection h with h1
            subst h1
            simp [ih (emptyNode H) child r1 r2 hrec]
        | some p =>
          simp only [hpn] at h
          by_cases hname : n.paramName = pname
          · rw [if_pos hname] at h
            cases hrec : insertParts cfg p rest r1 with
            | error e =>
              simp only [hrec] at h
              exact Except.noConfusion h
            | ok child =>
              simp only [hrec] at h
              injection h with h1
              subst h1
              simp [ih p child r1 r2 hrec, hname]
          · rw [if_neg hname] at h
            exact Except.noConfusion h
      | none =>
        simp only [hcl] at h ⊢
        by_cases hw : part.head? = some '*'
        · rw [if_pos hw] at h ⊢
          cases hca : n.catchAllNode with
          | none =>
            simp only [hca] at h
            cases hrec : insertParts cfg (emptyNode H) rest r1 with
            | error e =>
              simp only [hrec] at h
              exact Except.noConfusion h
            | ok child =>
              simp only [hrec] at h
              injection h with h1
              subst h1
              simp [ih (emptyNode H) child r1 r2 hrec, hw]
          | some c =>
            simp only [hca] at h
            by_cases hname : n.catchAllName = part.tail
            · rw [if_pos hname] at h
              cases hrec : insertParts cfg c rest r1 with
              | error e =>
                simp only [hrec] at h
                exact Except.noConfusion h
              | ok child =>
                simp only [hrec] at h
                injection h with h1
                subst h1
                simp [ih c child r1 r2 hrec, hname, hw]
            · rw [if_neg hname] at h
              exact Except.noConfusion h
        · rw [if_neg hw] at h ⊢
          cases hrec : insertParts cfg ((alistGet n.children part).getD (emptyNode H))
              rest r1 with
          | error e =>
            simp only [hrec] at h
            exact Except.noConfusion h
          | ok child =>
            simp only [hrec] at h
            injection h with h1
            subst h1
            simp [ih _ child r1 r2 hrec, hw]

/-- After a successful insertion, reading the route back along the same
parts returns exactly the stored route record. -/
theorem getRouteAt_insertParts {H : Type} (cfg : TrieRouterConfig) :
    ∀ (parts : List (List Char)) (n n1 : Node H) (r : Route H),
      insertParts cfg n parts r = .ok n1 →
      getRouteAt cfg n1 parts = some r := by
  intro parts
  induction parts with
  | nil =>
    intro n n1 r h
    rw [insertParts_nil] at h
    injection h with h1
    subst h1
    simp [getRouteAt]
  | cons part rest ih =>
    intro n n1 r h
    by_cases hp : part = []
    · rw [insertParts_cons, if_pos hp] at h
      rw [getRouteAt_cons, if_pos hp]
      exact ih n n1 r h
    · rw [insertParts_cons, if_neg hp] at h
      rw [getRouteAt_cons, if_neg hp]
      cases hcl : classifyParam cfg part with
      | some pname =>
        simp only [hcl] at h ⊢
        cases hpn : n.paramNode with
        | none =>
          simp only [hpn] at h
          cases hrec : insertParts cfg (emptyNode H) rest r with
          | error e =>
            simp only [hrec] at h
            exact Except.noConfusion h
          | ok child =>
            simp only [hrec] at h
            injection h with h1
            subst h1
            simp [ih (emptyNode H) child r hrec]
        | some p =>
          simp only [hpn] at h
          by_cases hname : n.paramName = pname
          · rw [if_pos hname] at h
            cases hrec : insertParts cfg p rest r with
            | error e =>
              simp only [hrec] at h
              exact Except.noConfusion h
            | ok child =>
              simp only [hrec] at h
              injection h with h1
              subst h1
              simp [ih p child r hrec]
          · rw [if_neg hname] at h
            exact Except.noConfusion h
      | none =>
        simp only [hcl] at h ⊢
        by_cases hw : part.head? = some '*'
        · rw [if_pos hw] at h ⊢
          cases hca : n.catchAllNode with
          | none =>
            simp only [hca] at h
            cases hrec : insertParts cfg (emptyNode H) rest r with
            | error e =>
              simp only [hrec] at h
              exact Except.noConfusion h
            | ok child =>
              simp only [hrec] at h
              injection h with h1
              subst h1
              simp [ih (emptyNode H) child r hrec, hw]
          | some c =>
            simp only [hca] at h
            by_cases hname : n.catchAllName = part.tail
            · rw [if_pos hname] at h
              cases hrec : insertParts cfg c rest r with
              | error e =>
                simp only [hrec] at h
                exact Except.noConfusion h
              | ok child =>
                simp only [hrec] at h
                injection h with h1
                subst h1
                simp [ih c child r hrec, hw]
            · rw [if_neg hname] at h
              exact Except.noConfusion h
        · rw [if_neg hw] at h ⊢
          cases hrec : insertParts cfg ((alistGet n.children part).getD (emptyNode H))
              rest r with
          | error e =>
            simp only [hrec] at h
            exact Except.noConfusion h
          | ok child =>
            simp only [hrec] at h
            injection h with h1
            subst h1
            simp [ih _ child r hrec, hw]

theorem trieOf_after_Add {H : Type} (r : TrieRouter H) (method : String)
    (n : Node H) :
    trieOf { r with root := alistSet r.root method n } method = n := by
  simp [trieOf, alistGet_set_self]

/-- Registering the same `(method, path)` a second time succeeds and yields
the same router with only the terminal node's stored route replaced. -/
theorem Add_again {H : Type} (r r1 : TrieRouter H) (method : String)
    (path : List Char) (h1 h2 : H) (mw1 mw2 : List (H → H))
    (hAdd : Add r method path h1 mw1 = .ok r1) :
    Add r1 method path h2 mw2 =
      .ok { r1 with
        root := alistSet r1.root method
          (setRouteAt r1.config (trieOf r1 method) (normalizeParts path)
            (routeFor r1 method path h2 mw2)) } := by
  unfold Add at hAdd ⊢
  cases hins : insertParts r.config (trieOf r method) (normalizeParts path)
      (routeFor r method path h1 mw1) with
  | error e =>
    rw [hins] at hAdd
    exact Except.noConfusion hAdd
  | ok n1 =>
    rw [hins] at hAdd
    injection hAdd with hAdd
    subst hAdd
    have hroot := trieOf_after_Add r method n1
    rw [hroot]
    have hagain := insertParts_again r.config (normalizeParts path)
      (trieOf r method) n1 (routeFor r method path h1 mw1)
      (routeFor { r with root := alistSet r.root method n1 } method path h2 mw2) hins
    rw [hagain]

/-- After a successful `Add`, the route stored in the resulting trie at the
registered path is exactly the compiled route record. -/
theorem Add_getRouteAt {H : Type} (r r' : TrieRouter H) (method : String)
    (path : List Char) (h : H) (mws : List (H → H))
    (hAdd : Add r method path h mws = .ok r') :
    getRouteAt r.config (trieOf r' method) (normalizeParts path) =
      some (routeFor r method path h mws) := by
  unfold Add at hAdd
  cases hins : insertParts r.config (trieOf r method) (normalizeParts path)
      (routeFor r method path h mws) with
  | error e =>
    rw [hins] at hAdd
    exact Except.noConfusion hAdd
  | ok n1 =>
    rw [hins] at hAdd
    injection hAdd with hAdd
    subst hAdd
    rw [trieOf_after_Add r method n1]
    exact getRouteAt_insertParts r.config (normalizeParts path) (trieOf r method)
      n1 (routeFor r method path h mws) hins

theorem findTerminal_error_msg {H : Type} (n : Node H) (ctx : List Param)
    (e : List Char) (h : (findTerminal n ctx).1 = .error e) :
    e = routeNotFoundMsg := by
  unfold findTerminal at h
  by_cases h1 : n.route.handler.isSome
  · rw [if_pos h1] at h
    exact absurd h (by simp)
  · rw [if_neg h1] at h
    cases hca : n.catchAllNode with
    | some c =>
      simp only [hca] at h
      by_cases h2 : c.route.handler.isSome
      · rw [if_pos h2] at h
        exact absurd h (by simp)
      · rw [if_neg h2] at h
        simp at h
        exact h.symm
    | none =>
      simp only [hca] at h
      simp at h
      exact h.symm

theorem findCatchAll_error_msg {H : Type} (n ca : Node H) (part rest : List Char)
    (ctx : List Param) (e : List Char)
    (h : (findCatchAll n ca part rest ctx).1 = .error e) : e = routeNotFoundMsg := by
  unfold findCatchAll at h
  by_cases h1 : ca.route.handler.isSome
  · rw [if_pos h1] at h
    exact absurd h (by simp)
  · rw [if_neg h1] at h
    simp at h
    exact h.symm

/-- Every error the lookup loop produces carries the `route not found`
message — there is no other lookup-time error kind inside the walk. -/
theorem findParts_error_msg {H : Type} :
    ∀ (parts : List (List Char)) (n : Node H) (ctx : List Param) (e : List Char),
      (findParts n parts ctx).1 = .error e → e = routeNotFoundMsg := by
  intro parts
  induction parts with
  | nil =>
    intro n ctx e h
    exact findTerminal_error_msg n ctx e h
  | cons part remaining ih =>
    intro n ctx e h
    rw [findParts_cons] at h
    by_cases hp : part = []
    · rw [if_pos hp] at h
      exact ih n ctx e h
    · rw [if_neg hp] at h
      cases hal : alistGet n.children part with
      | some child =>
        simp only [hal] at h
        exact ih child ctx e h
      | none =>
        simp only [hal] at h
        cases hpn : n.paramNode with
        | some p =>
          simp only [hpn] at h
          exact ih p _ e h
        | none =>
          simp only [hpn] at h
          cases hca : n.catchAllNode with
          | some ca =>
            simp only [hca] at h
            exact findCatchAll_error_msg n ca part (joinSlash remaining) ctx e h
          | none =>
            simp only [hca] at h
            simp at h
            exact h.symm

/-- A successful lookup always returns a route that carries a handler:
the loop returns `ok` only after checking `Handler != nil`. -/
theorem findParts_ok_handler {H : Type} :
    ∀ (parts : List (List Char)) (n : Node H) (ctx : List Param) (rt : Route H),
      (findParts n parts ctx).1 = .ok rt → rt.handler.isSome := by
  intro parts
  induction parts with
  | nil =>
    intro n ctx rt h
    unfold findParts findTerminal at h
    by_cases h1 : n.route.handler.isSome
    · rw [if_pos h1] at h
      simp at h
      rw [h] at h1
      exact h1
    · rw [if_neg h1] at h
      cases hca : n.catchAllNode with
      | some c =>
        simp only [hca] at h
        by_cases h2 : c.route.handler.isSome
        · rw [if_pos h2] at h
          simp at h
          rw [h] at h2
          exact h2
        · rw [if_neg h2] at h
          exact absurd h (by simp)
      | none =>
        simp only [hca] at h
        exact absurd h (by simp)
  | cons part remaining ih =>
    intro n ctx rt h
    rw [findParts_cons] at h
    by_cases hp : part = []
    · rw [if_pos hp] at h
      exact ih n ctx rt h
    · rw [if_neg hp] at h
      cases hal : alistGet n.children part with
      | some child =>
        simp only [hal] at h
        exact ih child ctx rt h
      | none =>
        simp only [hal] at h
        cases hpn : n.paramNode with
        | some p =>
          simp only [hpn] at h
          exact ih p _ rt h
        | none =>
          simp only [hpn] at h
          cases hca : n.catchAllNode with
          | some ca =>
            simp only [hca] at h
            unfold findCatchAll at h
            by_cases h2 : ca.route.handler.isSome
            · rw [if_pos h2] at h
              simp at h
              rw [h] at h2
              exact h2
            · rw [if_neg h2] at h
              exact absurd h (by simp)
          | none =>
            simp only [hca] at h
            exact absurd h (by simp)

/-- The walk only ever appends to the param sink: whatever it returns, the
supplied sink is a prefix of the returned one — entries written before a
failure are never removed. -/
theorem findParts_params_mono {H : Type} :
    ∀ (parts : List (List Char)) (n : Node H) (ctx : List Param),
      ∃ t, (findParts n parts ctx).2 = ctx ++ t := by
  intro parts
  induction parts with
  | nil =>
    intro n ctx
    unfold findParts findTerminal
    by_cases h1 : n.route.handler.isSome
    · rw [if_pos h1]
      exact ⟨[], by simp⟩
    · rw [if_neg h1]
      cases hca : n.catchAllNode with
      | some c =>
        refine ⟨[⟨n.catchAllName, []⟩], ?_⟩
        by_cases h2 : c.route.handler.isSome <;> simp [h2, AddParam]
      | none => exact ⟨[], by simp⟩
  | cons part remaining ih =>
    intro n ctx
    rw [findParts_cons]
    by_cases hp : part = []
    · rw [if_pos hp]
      exact ih n ctx
    · rw [if_neg hp]
      cases hal : alistGet n.children part with
      | some child =>
        simp only [hal]
        exact ih child ctx
      | none =>
        simp only [hal]
        cases hpn : n.paramNode with
        | some p =>
          simp only [hpn]
          obtain ⟨t, ht⟩ := ih p (AddParam ctx n.paramName part)
          exact ⟨⟨n.paramName, part⟩ :: t, by simpa [AddParam] using ht⟩
        | none =>
          simp only [hpn]
          cases hca : n.catchAllNode with
          | some ca =>
            simp only [hca]
            refine ⟨[⟨n.catchAllName,
              if (joinSlash remaining).isEmpty then part
              else part ++ '/' :: joinSlash remaining⟩], ?_⟩
            by_cases h2 : ca.route.handler.isSome <;>
              simp [findCatchAll, h2, AddParam]
          | none => exact ⟨[], by simp⟩

theorem findLoop_literal_step {H : Type} (n child : Node H) (c : Char)
    (cs : List Char) (ctx : List Param)
    (hpart : ¬ (takePart (c :: cs)).1 = [])
    (hchild : alistGet n.children (takePart (c :: cs)).1 = some child) :
    findLoop n (c :: cs) ctx = findLoop child (takePart (c :: cs)).2 ctx := by
  rw [findLoop_cons, if_neg hpart]
  simp only [hchild]

theorem findLoop_param_step {H : Type} (n p : Node H) (c : Char)
    (cs : List Char) (ctx : List Param)
    (hpart : ¬ (takePart (c :: cs)).1 = [])
    (hchild : alistGet n.children (takePart (c :: cs)).1 = none)
    (hpn : n.paramNode = some p) :
    findLoop n (c :: cs) ctx =
      findLoop p (takePart (c :: cs)).2
        (AddParam ctx n.paramName (takePart (c :: cs)).1) := by
  rw [findLoop_cons, if_neg hpart]
  simp only [hchild, hpn]

theorem findLoop_catchAll_step {H : Type} (n ca : Node H) (c : Char)
    (cs : List Char) (ctx : List Param)
    (hpart : ¬ (takePart (c :: cs)).1 = [])
    (hchild : alistGet n.children (takePart (c :: cs)).1 = none)
    (hpn : n.paramNode = none) (hca : n.catchAllNode = some ca) :
    findLoop n (c :: cs) ctx =
      findCatchAll n ca (takePart (c :: cs)).1 (takePart (c :: cs)).2 ctx := by
  rw [findLoop_cons, if_neg hpart]
  simp only [hchild, hpn, hca]

/-- Keep only the non-empty pieces (the walks skip empty parts). -/
def nonEmptyParts (parts : List (List Char)) : List (List Char) :=
  parts.filter (fun p => !p.isEmpty)

/-- The parts produced by `Find`'s in-place iteration (`takePart` repeated
until the remainder is empty). -/
def splitParts : List Char → List (List Char)
  | [] => []
  | c :: cs => (takePart (c :: cs)).1 :: splitParts (takePart (c :: cs)).2
termination_by s => s.length
decreasing_by exact takePart_snd_lt _ _

theorem splitParts_nil : splitParts [] = [] := by rw [splitParts]

theorem splitParts_cons (c : Char) (cs : List Char) :
    splitParts (c :: cs) =
      (takePart (c :: cs)).1 :: splitParts (takePart (c :: cs)).2 := by
  rw [splitParts]

@[simp] theorem nonEmptyParts_nil : nonEmptyParts [] = [] := rfl

theorem nonEmptyParts_cons_empty (ps : List (List Char)) :
    nonEmptyParts ([] :: ps) = nonEmptyParts ps := by
  simp [nonEmptyParts]

theorem nonEmptyParts_cons (p : List Char) (ps : List (List Char)) :
    nonEmptyParts (p :: ps) =
      if p.isEmpty then nonEmptyParts ps else p :: nonEmptyParts ps := by
  by_cases h : p.isEmpty <;> simp [nonEmptyParts, List.filter_cons, h]

/-- Skipping empties, the in-place iteration and `strings.Split` produce
the same pieces. -/
theorem nonEmptyParts_splitParts (s : List Char) :
    nonEmptyParts (splitParts s) = nonEmptyParts (splitOnSlash s) := by
  suffices h : ∀ (len : Nat) (s : List Char), s.length ≤ len →
      nonEmptyParts (splitParts s) = nonEmptyParts (splitOnSlash s) by
    exact h s.length s le_rfl
  intro len
  induction len with
  | zero =>
    intro s hle
    have : s = [] := List.eq_nil_of_length_eq_zero (Nat.le_zero.mp hle)
    subst this
    rw [splitParts_nil]
    rfl
  | succ k ih =>
    intro s hle
    match s with
    | [] =>
      rw [splitParts_nil]
      rfl
    | c :: cs =>
      have hrec : (takePart (c :: cs)).2.length ≤ k := by
        have := takePart_snd_lt c cs
        simp only [List.length_cons] at this hle
        omega
      rw [splitParts_cons, splitOnSlash_step, nonEmptyParts_cons, nonEmptyParts_cons]
      have htail : nonEmptyParts (splitParts (takePart (c :: cs)).2) =
          nonEmptyParts
            (if '/' ∈ c :: cs then splitOnSlash (takePart (c :: cs)).2 else []) := by
        by_cases hmem : '/' ∈ c :: cs
        · rw [if_pos hmem]
          exact ih _ hrec
        · rw [if_neg hmem, takePart_snd_of_no_slash _ hmem, splitParts_nil]
      rw [htail]

theorem splitOnSlash_append_slash (s : List Char) :
    splitOnSlash (s ++ ['/']) = splitOnSlash s ++ [[]] := by
  induction s with
  | nil => rfl
  | cons c cs ih =>
    by_cases h : c = '/'
    · subst h
      rw [List.cons_append, splitOnSlash_cons_slash, splitOnSlash_cons_slash, ih]
      rfl
    · match hsp : splitOnSlash cs with
      | [] => exact absurd hsp (splitOnSlash_ne_nil cs)
      | p :: rest =>
        rw [hsp] at ih
        rw [List.cons_append, splitOnSlash_cons_ne c (cs ++ ['/']) p (rest ++ [[]]) h
          (by rw [ih]; rfl), splitOnSlash_cons_ne c cs p rest h hsp]
        rfl

theorem nonEmptyParts_splitOnSlash_cons_slash (s : List Char) :
    nonEmptyParts (splitOnSlash ('/' :: s)) = nonEmptyParts (splitOnSlash s) := by
  rw [splitOnSlash_cons_slash, nonEmptyParts_cons_empty]

theorem nonEmptyParts_splitOnSlash_append_slash (s : List Char) :
    nonEmptyParts (splitOnSlash (s ++ ['/'])) = nonEmptyParts (splitOnSlash s) := by
  rw [splitOnSlash_append_slash]
  simp [nonEmptyParts, List.filter_append]

theorem nonEmptyParts_splitOnSlash_dropWhile (s : List Char) :
    nonEmptyParts (splitOnSlash (s.dropWhile (· = '/'))) =
      nonEmptyParts (splitOnSlash s) := by
  induction s with
  | nil => rfl
  | cons c cs ih =>
    by_cases h : c = '/'
    · subst h
      rw [show ('/' :: cs).dropWhile (· = '/') = cs.dropWhile (· = '/') by
        simp [List.dropWhile], ih, nonEmptyParts_splitOnSlash_cons_slash]
    · rw [show (c :: cs).dropWhile (· = '/') = c :: cs by
        simp [List.dropWhile, h]]

theorem nonEmptyParts_splitOnSlash_trimTrailing (s : List Char) :
    nonEmptyParts (splitOnSlash ((s.reverse.dropWhile (· = '/')).reverse)) =
      nonEmptyParts (splitOnSlash s) := by
  induction s using List.reverseRecOn with
  | nil => rfl
  | append_singleton t c ih =>
    by_cases h : c = '/'
    · subst h
      rw [show ((t ++ ['/']).reverse.dropWhile (· = '/')).reverse =
          (t.reverse.dropWhile (· = '/')).reverse by
        simp [List.dropWhile]]
      rw [ih, ← nonEmptyParts_splitOnSlash_append_slash t]
    · rw [show ((t ++ [c]).reverse.dropWhile (· = '/')).reverse = t ++ [c] by
        simp [List.dropWhile, h]]

theorem nonEmptyParts_splitOnSlash_trimSlashes (s : List Char) :
    nonEmptyParts (splitOnSlash (trimSlashes s)) = nonEmptyParts (splitOnSlash s) := by
  unfold trimSlashes
  rw [nonEmptyParts_splitOnSlash_trimTrailing (s.dropWhile (· = '/')),
    nonEmptyParts_splitOnSlash_dropWhile]

theorem nonEmptyParts_normalizePath (path : List Char) :
    nonEmptyParts (splitOnSlash (normalizePath path)) =
      nonEmptyParts (splitOnSlash path) := by
  unfold normalizePath
  by_cases h0 : path = []
  · subst h0
    rfl
  · rw [if_neg h0]
    by_cases h1 : path.head? = some '/'
    · rw [if_pos h1]
    · rw [if_neg h1]
      exact nonEmptyParts_splitOnSlash_cons_slash path

/-- The sequence of non-empty parts `Find`'s iteration consumes: strip one
leading slash, strip one trailing slash, split in place, skip empties. -/
def findSegments (path : List Char) : List (List Char) :=
  nonEmptyParts (splitParts (stripOnce path))

/-- The sequence of non-empty parts `Add` walks: normalize the path, trim
every outer slash, split on `'/'`, skip empties. -/
def insertSegments (path : List Char) : List (List Char) :=
  nonEmptyParts (normalizeParts path)

theorem insertSegments_eq (path : List Char) :
    insertSegments path = nonEmptyParts (splitOnSlash path) := by
  unfold insertSegments normalizeParts
  by_cases hsp : trimSlashes (normalizePath path) = []
  · rw [if_pos hsp, ← nonEmptyParts_normalizePath,
      ← nonEmptyParts_splitOnSlash_trimSlashes (normalizePath path), hsp]
    rfl
  · rw [if_neg hsp, nonEmptyParts_splitOnSlash_trimSlashes,
      nonEmptyParts_normalizePath]

theorem stripOnce_eq (path : List Char) :
    stripOnce path =
      if (if path.head? = some '/' then path.tail else path).getLast? = some '/'
      then (if path.head? = some '/' then path.tail else path).dropLast
      else (if path.head? = some '/' then path.tail else path) := rfl

theorem findSegments_eq (path : List Char) :
    findSegments path = nonEmptyParts (splitOnSlash path) := by
  unfold findSegments
  rw [nonEmptyParts_splitParts, stripOnce_eq]
  have step2 : ∀ (s1 : List Char),
      nonEmptyParts (splitOnSlash
        (if s1.getLast? = some '/' then s1.dropLast else s1)) =
      nonEmptyParts (splitOnSlash s1) := by
    intro s1
    by_cases h2 : s1.getLast? = some '/'
    · rw [if_pos h2]
      have hsplit : s1.dropLast ++ ['/'] = s1 :=
        List.dropLast_append_getLast? '/' (Option.mem_def.mpr h2)
      conv_rhs => rw [← hsplit]
      rw [nonEmptyParts_splitOnSlash_append_slash]
    · rw [if_neg h2]
  rw [step2]
  by_cases h1 : path.head? = some '/'
  · rw [if_pos h1]
    match path, h1 with
    | c :: cs, h1 =>
      have hc : c = '/' := by
        simp [List.head?] at h1
        exact h1
      subst hc
      rw [show ('/' :: cs).tail = cs from rfl,
        nonEmptyParts_splitOnSlash_cons_slash]
  · rw [if_neg h1]

/-- `Find` and `Add` consume the same non-empty segment sequence from any
raw path string. -/
theorem findSegments_eq_insertSegments (path : List Char) :
    findSegments path = insertSegments path := by
  rw [findSegments_eq, insertSegments_eq]

theorem findTerminal_fst_ctx {H : Type} (n : Node H) (ctx ctx' : List Param) :
    (findTerminal n ctx).1 = (findTerminal n ctx').1 := by
  by_cases h1 : n.route.handler.isSome
  · simp [findTerminal, h1]
  · cases hca : n.catchAllNode with
    | none => simp [findTerminal, h1, hca]
    | some c =>
      by_cases h2 : c.route.handler.isSome <;> simp [findTerminal, h1, hca, h2]

theorem findCatchAll_fst {H : Type} (n ca : Node H) (part rest : List Char)
    (ctx : List Param) :
    (findCatchAll n ca part rest ctx).1 =
      if ca.route.handler.isSome then .ok ca.route
      else .error routeNotFoundMsg := by
  by_cases h : ca.route.handler.isSome <;> simp [findCatchAll, h]

/-- Which route (or error) the walk resolves to does not depend on the
supplied param sink. -/
theorem findParts_fst_ctx {H : Type} :
    ∀ (parts : List (List Char)) (n : Node H) (ctx ctx' : List Param),
      (findParts n parts ctx).1 = (findParts n parts ctx').1 := by
  intro parts
  induction parts with
  | nil =>
    intro n ctx ctx'
    exact findTerminal_fst_ctx n ctx ctx'
  | cons part remaining ih =>
    intro n ctx ctx'
    rw [findParts_cons, findParts_cons]
    by_cases hp : part = []
    · rw [if_pos hp, if_pos hp]
      exact ih n ctx ctx'
    · rw [if_neg hp, if_neg hp]
      cases hal : alistGet n.children part with
      | some child =>
        simp only [hal]
        exact ih child ctx ctx'
      | none =>
        simp only [hal]
        cases hpn : n.paramNode with
        | some p =>
          simp only [hpn]
          exact ih p _ _
        | none =>
          simp only [hpn]
          cases hca : n.catchAllNode with
          | some ca =>
            simp only [hca]
            rw [findCatchAll_fst, findCatchAll_fst]
          | none => rfl

/-- Which route (or error) the walk resolves to depends only on the
non-empty parts: interior empty pieces (from consecutive slashes) are
skipped and only affect the catch-all's captured text, not the result. -/
theorem findParts_fst_filter {H : Type} :
    ∀ (parts : List (List Char)) (n : Node H) (ctx : List Param),
      (findParts n (nonEmptyParts parts) ctx).1 = (findParts n parts ctx).1 := by
  intro parts
  induction parts with
  | nil => intro n ctx; rfl
  | cons part remaining ih =>
    intro n ctx
    rw [nonEmptyParts_cons]
    by_cases hp : part = []
    · rw [if_pos (by simp [hp] : part.isEmpty = true), findParts_cons,
        if_pos hp]
      exact ih n ctx
    · have hne : part.isEmpty = false := by
        cases part with
        | nil => exact absurd rfl hp
        | cons c cs => rfl
      rw [if_neg (by simp [hne]), findParts_cons, findParts_cons, if_neg hp,
        if_neg hp]
      cases hal : alistGet n.children part with
      | some child =>
        simp only [hal]
        exact ih child ctx
      | none =>
        simp only [hal]
        cases hpn : n.paramNode with
        | some p =>
          simp only [hpn]
          exact ih p _
        | none =>
          simp only [hpn]
          cases hca : n.catchAllNode with
          | some ca =>
            simp only [hca]
            rw [findCatchAll_fst, findCatchAll_fst]
          | none => rfl

theorem findSegments_stripOnce (path : List Char) :
    findSegments path = nonEmptyParts (splitOnSlash (stripOnce path)) := by
  unfold findSegments
  exact nonEmptyParts_splitParts _

/-- Two raw paths with the same consumed segment sequence resolve to the
same route (or error), whatever sinks are supplied. -/
theorem Find_fst_of_segments {H : Type} (r : TrieRouter H) (method : String)
    (p1 p2 : List Char) (ctx1 ctx2 : List Param)
    (h : findSegments p1 = findSegments p2) :
    (Find r method p1 ctx1).1 = (Find r method p2 ctx2).1 := by
  rw [Find_eq_FindParts, Find_eq_FindParts]
  unfold FindParts
  cases alistGet r.root method with
  | none => rfl
  | some n =>
    rw [← findParts_fst_filter (splitOnSlash (stripOnce p1)) n ctx1,
      ← findParts_fst_filter (splitOnSlash (stripOnce p2)) n ctx2,
      ← findSegments_stripOnce, ← findSegments_stripOnce, h]
    exact findParts_fst_ctx _ n ctx1 ctx2

/-! Concrete routers used by the claim theorems; handlers are numbered. -/

/-- A fresh router with the default configuration. -/
def demo0 : TrieRouter Nat := NewTrieRouter Nat

/-- Register a route with no route-specific middlewares, keeping the old
router when registration fails. -/
def addD (r : TrieRouter Nat) (method : String) (path : String) (h : Nat) :
    TrieRouter Nat :=
  (Add r method path.toList h []).toOption.getD r

def usersLit : TrieRouter Nat := addD demo0 "GET" "/users/search" 1

def usersLitParam : TrieRouter Nat := addD usersLit "GET" "/users/:id" 2

def usersParam : TrieRouter Nat := addD demo0 "GET" "/users/:id" 2

def usersParamLit : TrieRouter Nat := addD usersParam "GET" "/users/search" 1

def wildOnlyA : TrieRouter Nat := addD demo0 "GET" "/f/*a" 1

def static1 : TrieRouter Nat := addD demo0 "GET" "/static/*filepath" 7

/-- The `users` node of this router carries all three child kinds: the
literal child `search`, a param child `id`, and a wildcard child `rest`. -/
def prioAll : TrieRouter Nat := addD usersLitParam "GET" "/users/*rest" 3

def filesLW1 : TrieRouter Nat := addD demo0 "GET" "/files/list" 4

def filesLW : TrieRouter Nat := addD filesLW1 "GET" "/files/*rest" 5

/-- C1: at every node `Find` applies the fixed precedence literal, then
param, then wildcard: an exactly matching literal child is taken without
recording a parameter whatever other children exist, and otherwise an
existing param child is taken whatever the wildcard child is; concretely,
with `/users/search` and `/users/:id` registered in either order
`/users/search` resolves to the literal route with an empty sink and
`/users/42` to the param route with `id = "42"`; on a node carrying all
three child kinds the literal still wins and the param still beats the
wildcard; and with only a literal and a wildcard child the literal wins
while other segments fall through to the wildcard. -/
theorem claim1_literal_precedence :
    (∀ (H : Type) (n child : Node H) (c : Char) (cs : List Char)
      (ctx : List Param),
      ¬ (takePart (c :: cs)).1 = [] →
      alistGet n.children (takePart (c :: cs)).1 = some child →
      findLoop n (c :: cs) ctx = findLoop child (takePart (c :: cs)).2 ctx)
    ∧ Add demo0 "GET" "/users/search".toList 1 [] = .ok usersLit
    ∧ Add usersLit "GET" "/users/:id".toList 2 [] = .ok usersLitParam
    ∧ Find usersLitParam "GET" "/users/search".toList [] =
        (.ok ⟨"GET", "/users/search".toList, some 1, []⟩, [])
    ∧ Find usersLitParam "GET" "/users/42".toList [] =
        (.ok ⟨"GET", "/users/:id".toList, some 2, []⟩,
          [⟨"id".toList, "42".toList⟩])
    ∧ Add demo0 "GET" "/users/:id".toList 2 [] = .ok usersParam
    ∧ Add usersParam "GET" "/users/search".toList 1 [] = .ok usersParamLit
    ∧ Find usersParamLit "GET" "/users/search".toList [] =
        (.ok ⟨"GET", "/users/search".toList, some 1, []⟩, [])
    ∧ Find usersParamLit "GET" "/users/42".toList [] =
        (.ok ⟨"GET", "/users/:id".toList, some 2, []⟩,
          [⟨"id".toList, "42".toList⟩])
    ∧ (∀ (H : Type) (n p : Node H) (c : Char) (cs : List Char)
      (ctx : List Param),
      ¬ (takePart (c :: cs)).1 = [] →
      alistGet n.children (takePart (c :: cs)).1 = none →
      n.paramNode = some p →
      findLoop n (c :: cs) ctx =
        findLoop p (takePart (c :: cs)).2
          (AddParam ctx n.paramName (takePart (c :: cs)).1))
    ∧ Add usersLitParam "GET" "/users/*rest".toList 3 [] = .ok prioAll
    ∧ (alistGet (trieOf prioAll "GET").children "users".toList).map
        (fun n => ((alistGet n.children "search".toList).isSome,
          n.paramNode.isSome, n.catchAllNode.isSome)) =
        some (true, true, true)
    ∧ Find prioAll "GET" "/users/search".toList [] =
        (.ok ⟨"GET", "/users/search".toList, some 1, []⟩, [])
    ∧ Find prioAll "GET" "/users/42".toList [] =
        (.ok ⟨"GET", "/users/:id".toList, some 2, []⟩,
          [⟨"id".toList, "42".toList⟩])
    ∧ Add demo0 "GET" "/files/list".toList 4 [] = .ok filesLW1
    ∧ Add filesLW1 "GET" "/files/*rest".toList 5 [] = .ok filesLW
    ∧ Find filesLW "GET" "/files/list".toList [] =
        (.ok ⟨"GET", "/files/list".toList, some 4, []⟩, [])
    ∧ Find filesLW "GET" "/files/zzz".toList [] =
        (.ok ⟨"GET", "/files/*rest".toList, some 5, []⟩,
          [⟨"rest".toList, "zzz".toList⟩]) := by
  refine ⟨fun H n child c cs ctx hpart hchild =>
    findLoop_literal_step n child c cs ctx hpart hchild,
    rfl, rfl, ?_, ?_, rfl, rfl, ?_, ?_,
    fun H n p c cs ctx hpart hchild hpn =>
      findLoop_param_step n p c cs ctx hpart hchild hpn,
    rfl, rfl, ?_, ?_, rfl, rfl, ?_, ?_⟩
  all_goals rw [Find_eq_FindParts]
  all_goals rfl

/-- Witness for C1's general conjunct at a one-node trie. -/
theorem claim1_witness :
    findLoop (Node.mk [(['a'], emptyNode Nat)] none [] none [] (emptyRoute Nat))
      ['a'] [] = findLoop (emptyNode Nat) [] [] :=
  claim1_literal_precedence.1 Nat _ (emptyNode Nat) 'a' [] [] (by decide) rfl

/-- C2: a param (resp. wildcard) child's recorded name is fixed on
creation; inserting through the same node with a different name fails with
a conflict error that spells out both names, stores nothing, and the first
registration keeps matching; re-registering with the same name succeeds. -/
theorem claim2_name_conflict :
    (∀ (H : Type) (cfg : TrieRouterConfig) (n p : Node H) (part : List Char)
      (rest : List (List Char)) (r : Route H) (pname : List Char),
      ¬ part = [] → classifyParam cfg part = some pname →
      n.paramNode = some p → ¬ n.paramName = pname →
      insertParts cfg n (part :: rest) r =
        .error (paramConflictMsg n.paramName pname))
    ∧ (∀ (H : Type) (cfg : TrieRouterConfig) (n c : Node H) (part : List Char)
      (rest : List (List Char)) (r : Route H),
      ¬ part = [] → classifyParam cfg part = none → part.head? = some '*' →
      n.catchAllNode = some c → ¬ n.catchAllName = part.tail →
      insertParts cfg n (part :: rest) r =
        .error (wildcardConflictMsg n.catchAllName part.tail))
    ∧ Add demo0 "GET" "/users/:id".toList 2 [] = .ok usersParam
    ∧ Add usersParam "GET" "/users/:user_id".toList 3 [] =
        .error "param name conflict: id vs user_id".toList
    ∧ Find usersParam "GET" "/users/42".toList [] =
        (.ok ⟨"GET", "/users/:id".toList, some 2, []⟩,
          [⟨"id".toList, "42".toList⟩])
    ∧ (Add usersParam "GET" "/users/:id".toList 3 []).isOk = true
    ∧ Add demo0 "GET" "/f/*a".toList 1 [] = .ok wildOnlyA
    ∧ Add wildOnlyA "GET" "/f/*b".toList 2 [] =
        .error "wildcard name conflict: a vs b".toList := by
  refine ⟨?_, ?_, rfl, rfl, ?_, rfl, rfl, rfl⟩
  · intro H cfg n p part rest r pname hp hcl hpn hname
    rw [insertParts_cons, if_neg hp]
    simp only [hcl, hpn, if_neg hname]
  · intro H cfg n c part rest r hp hcl hw hca hname
    rw [insertParts_cons, if_neg hp]
    simp only [hcl, hca, if_pos hw, if_neg hname]
  · rw [Find_eq_FindParts]
    rfl

/-- Witness for C2's conflict conjuncts at a concrete one-node trie. -/
theorem claim2_witness :
    insertParts DefaultTrieRouterConfig
      (Node.mk [] (some (emptyNode Nat)) ['x'] none [] (emptyRoute Nat))
      [[':', 'y']] (emptyRoute Nat) =
      .error (paramConflictMsg ['x'] ['y']) :=
  claim2_name_conflict.1 Nat DefaultTrieRouterConfig _ (emptyNode Nat)
    [':', 'y'] [] (emptyRoute Nat) ['y'] (by decide) rfl rfl (by decide)

/-- C3: taking the wildcard branch ends the walk at the wildcard child
(whose own route is the only possible result), capturing the current part
joined with `'/'` to the whole raw remainder; concretely, with
`/static/*filepath` registered, `/static/css/a.css` matches with
`filepath = "css/a.css"` and `/static/` matches with `filepath = ""`. -/
theorem claim3_wildcard_capture :
    (∀ (H : Type) (n ca : Node H) (c : Char) (cs : List Char)
      (ctx : List Param),
      ¬ (takePart (c :: cs)).1 = [] →
      alistGet n.children (takePart (c :: cs)).1 = none →
      n.paramNode = none → n.catchAllNode = some ca →
      findLoop n (c :: cs) ctx =
        ((if ca.route.handler.isSome then .ok ca.route
          else .error routeNotFoundMsg),
          AddParam ctx n.catchAllName
            (if (takePart (c :: cs)).2.isEmpty then (takePart (c :: cs)).1
            else (takePart (c :: cs)).1 ++ '/' :: (takePart (c :: cs)).2)))
    ∧ Add demo0 "GET" "/static/*filepath".toList 7 [] = .ok static1
    ∧ Find static1 "GET" "/static/css/a.css".toList [] =
        (.ok ⟨"GET", "/static/*filepath".toList, some 7, []⟩,
          [⟨"filepath".toList, "css/a.css".toList⟩])
    ∧ Find static1 "GET" "/static/".toList [] =
        (.ok ⟨"GET", "/static/*filepath".toList, some 7, []⟩,
          [⟨"filepath".toList, []⟩]) := by
  refine ⟨?_, rfl, ?_, ?_⟩
  · intro H n ca c cs ctx hpart hchild hpn hca
    rw [findLoop_catchAll_step n ca c cs ctx hpart hchild hpn hca]
    by_cases h : ca.route.handler.isSome <;> simp [findCatchAll, h]
  all_goals rw [Find_eq_FindParts]
  all_goals rfl

/-- Witness for C3's general conjunct at a one-node trie. -/
theorem claim3_witness :
    findLoop
      (Node.mk [] none [] (some (emptyNode Nat)) ['w'] (emptyRoute Nat))
      ['a', '/', 'b'] [] =
      (.error routeNotFoundMsg, [⟨['w'], ['a', '/', 'b']⟩]) := by
  have h := claim3_wildcard_capture.1 Nat
    (Node.mk [] none [] (some (emptyNode Nat)) ['w'] (emptyRoute Nat))
    (emptyNode Nat) 'a' ['/', 'b'] [] (by decide) rfl rfl rfl
  rw [h]
  rfl

@[simp] theorem except_isOk_ok {ε α : Type} (a : α) :
    (Except.ok (ε := ε) a).isOk = true := rfl

@[simp] theorem except_isOk_error {ε α : Type} (e : ε) :
    (Except.error (α := α) e).isOk = false := rfl

/-- C4 counterexample: with only `/static/*filepath` registered, looking up
`/static/` consumes every segment at the `static` node, whose own route is
empty — yet the match succeeds (through the wildcard child's route), so
"after all segments are consumed the current node must carry a non-empty
route for the match to succeed" is false as stated. -/
theorem claim4_counterexample :
    (Find static1 "GET" "/static/".toList []).1.isOk = true ∧
    (alistGet (trieOf static1 "GET").children "static".toList).map
      (fun n => n.route.handler.isSome) = some false := by
  constructor
  · rw [Find_eq_FindParts]
    rfl
  · rfl

/-- C4 (amended): the only lookup error kinds are `method not found` —
returned exactly when the method has no root — and `route not found`,
returned when the walk is stuck with segments remaining (no branch applies,
or the wildcard branch is taken but its child carries no route), or when
after consuming all segments the node carries no route and has no wildcard
child carrying one (such a child instead rescues the match with an empty
capture); a successful match always returns a route carrying a handler. -/
theorem claim4_notfound_taxonomy :
    (∀ (H : Type) (r : TrieRouter H) (m : String) (p : List Char)
      (ctx : List Param) (e : List Char),
      (Find r m p ctx).1 = .error e →
      e = methodNotFoundMsg ∨ e = routeNotFoundMsg)
    ∧ (∀ (H : Type) (r : TrieRouter H) (m : String) (p : List Char)
      (ctx : List Param), alistGet r.root m = none →
      Find r m p ctx = (.error methodNotFoundMsg, ctx))
    ∧ (∀ (H : Type) (r : TrieRouter H) (m : String) (p : List Char)
      (ctx : List Param) (rt : Route H),
      (Find r m p ctx).1 = .ok rt → rt.handler.isSome = true)
    ∧ (∀ (H : Type) (n : Node H) (ctx : List Param),
      ((findTerminal n ctx).1.isOk = false ↔
        (n.route.handler.isSome = false ∧
          ∀ ca, n.catchAllNode = some ca → ca.route.handler.isSome = false)))
    ∧ (∀ (H : Type) (n : Node H) (c : Char) (cs : List Char) (ctx : List Param),
      ¬ (takePart (c :: cs)).1 = [] →
      alistGet n.children (takePart (c :: cs)).1 = none →
      n.paramNode = none → n.catchAllNode = none →
      findLoop n (c :: cs) ctx = (.error routeNotFoundMsg, ctx))
    ∧ (∀ (H : Type) (n ca : Node H) (c : Char) (cs : List Char)
      (ctx : List Param),
      ¬ (takePart (c :: cs)).1 = [] →
      alistGet n.children (takePart (c :: cs)).1 = none →
      n.paramNode = none → n.catchAllNode = some ca →
      ca.route.handler.isSome = false →
      (findLoop n (c :: cs) ctx).1 = .error routeNotFoundMsg)
    ∧ (Find usersParam "GET" "/users".toList []).1 = .error routeNotFoundMsg := by
  refine ⟨?_, ?_, ?_, ?_, ?_, ?_, ?_⟩
  · intro H r m p ctx e h
    rw [Find_eq_FindParts] at h
    unfold FindParts at h
    cases halist : alistGet r.root m with
    | none =>
      simp only [halist] at h
      simp at h
      exact Or.inl h.symm
    | some n =>
      simp only [halist] at h
      exact Or.inr (findParts_error_msg _ n ctx e h)
  · intro H r m p ctx h
    unfold Find
    simp only [h]
  · intro H r m p ctx rt h
    rw [Find_eq_FindParts] at h
    unfold FindParts at h
    cases halist : alistGet r.root m with
    | none =>
      simp only [halist] at h
      exact absurd h (by simp)
    | some n =>
      simp only [halist] at h
      exact findParts_ok_handler _ n ctx rt h
  · intro H n ctx
    unfold findTerminal
    by_cases h1 : n.route.handler.isSome
    · simp [h1]
    · have h1' : n.route.handler.isSome = false := by simpa using h1
      cases hca : n.catchAllNode with
      | none => simp [h1', hca]
      | some c =>
        by_cases h2 : c.route.handler.isSome
        · simp [h1', hca, h2]
          exact Option.isSome_iff_ne_none.mp h2
        · have h2' : c.route.handler.isSome = false := by simpa using h2
          simp [h1', hca, h2']
          exact Option.not_isSome_iff_eq_none.mp h2
  · intro H n c cs ctx hpart hchild hpn hca
    rw [findLoop_cons, if_neg hpart]
    simp only [hchild, hpn, hca]
  · intro H n ca c cs ctx hpart hchild hpn hca hdead
    rw [findLoop_catchAll_step n ca c cs ctx hpart hchild hpn hca,
      findCatchAll_fst, hdead]
    rfl
  · rw [Find_eq_FindParts]
    rfl

/-- Witness for C4's stuck-walk conjunct at the empty one-node trie. -/
theorem claim4_witness :
    findLoop (emptyNode Nat) ['a'] [] = (.error routeNotFoundMsg, []) :=
  claim4_notfound_taxonomy.2.2.2.2.1 Nat (emptyNode Nat) 'a' [] []
    (by decide) rfl rfl rfl

def dupA1 : TrieRouter Nat := addD demo0 "GET" "/users/:id" 1

def dupA2 : TrieRouter Nat := addD dupA1 "GET" "/users/:id" 2

/-- C5: re-registering the exact same `(method, path)` succeeds, and the
resulting trie is the previous one with only the terminal node's stored
route replaced (`setRouteAt` creates no node); subsequent matches return
the second handler. -/
theorem claim5_overwrite :
    (∀ (H : Type) (r r1 : TrieRouter H) (method : String) (path : List Char)
      (h1 h2 : H) (mw1 mw2 : List (H → H)),
      Add r method path h1 mw1 = .ok r1 →
      Add r1 method path h2 mw2 =
        .ok { r1 with
          root := alistSet r1.root method
            (setRouteAt r1.config (trieOf r1 method) (normalizeParts path)
              (routeFor r1 method path h2 mw2)) })
    ∧ Add demo0 "GET" "/users/:id".toList 1 [] = .ok dupA1
    ∧ Add dupA1 "GET" "/users/:id".toList 2 [] = .ok dupA2
    ∧ dupA2 = { dupA1 with
        root := alistSet dupA1.root "GET"
          (setRouteAt dupA1.config (trieOf dupA1 "GET")
            (normalizeParts "/users/:id".toList)
            (routeFor dupA1 "GET" "/users/:id".toList 2 [])) }
    ∧ Find dupA2 "GET" "/users/7".toList [] =
        (.ok ⟨"GET", "/users/:id".toList, some 2, []⟩,
          [⟨"id".toList, "7".toList⟩]) := by
  refine ⟨fun H r r1 method path h1 h2 mw1 mw2 hAdd =>
    Add_again r r1 method path h1 h2 mw1 mw2 hAdd, rfl, rfl, rfl, ?_⟩
  rw [Find_eq_FindParts]
  rfl

/-- Witness for C5's general conjunct at the concrete double insert. -/
theorem claim5_witness :
    Add dupA1 "GET" "/users/:id".toList 2 [] =
      .ok { dupA1 with
        root := alistSet dupA1.root "GET"
          (setRouteAt dupA1.config (trieOf dupA1 "GET")
            (normalizeParts "/users/:id".toList)
            (routeFor dupA1 "GET" "/users/:id".toList 2 [])) } :=
  claim5_overwrite.1 Nat demo0 dupA1 "GET" "/users/:id".toList 1 2 [] [] rfl

def mwR : TrieRouter Nat :=
  (Add demo0 "GET" "/m".toList 5
    [fun x => x + 1, fun x => x * 2]).toOption.getD demo0

/-- C6: `Compile` folds the middleware list from last to first around the
terminal handler, so the first-declared middleware is the outermost layer
(`Compile h [m1, m2, m3] = m1 (m2 (m3 h))`), and the route record `Add`
stores on the trie node already carries this fully composed handler. -/
theorem claim6_middleware_compile :
    (∀ (H : Type) (h : H), Compile h [] = h)
    ∧ (∀ (H : Type) (h : H) (m : H → H) (ms : List (H → H)),
        Compile h (m :: ms) = m (Compile h ms))
    ∧ (∀ (H : Type) (h : H) (m1 m2 m3 : H → H),
        Compile h [m1, m2, m3] = m1 (m2 (m3 h)))
    ∧ (∀ (H : Type) (r r' : TrieRouter H) (method : String) (path : List Char)
        (h : H) (mws : List (H → H)),
        Add r method path h mws = .ok r' →
        getRouteAt r.config (trieOf r' method) (normalizeParts path) =
          some (routeFor r method path h mws))
    ∧ (∀ (H : Type) (r : TrieRouter H) (method : String) (path : List Char)
        (h : H) (mws : List (H → H)),
        (routeFor r method path h mws).handler =
          some (Compile h (combinedMiddlewares r mws)))
    ∧ (Find mwR "GET" "/m".toList []).1 =
        .ok ⟨"GET", "/m".toList, some 11, [fun x => x + 1, fun x => x * 2]⟩ := by
  refine ⟨fun H h => rfl, fun H h m ms => rfl, fun H h m1 m2 m3 => rfl,
    fun H r r' method path h mws hAdd =>
      Add_getRouteAt r r' method path h mws hAdd, ?_, ?_⟩
  · intro H r method path h mws
    unfold routeFor
    cases hc : combinedMiddlewares r mws with
    | nil => simp [Compile]
    | cons m ms => simp
  · rw [Find_eq_FindParts]
    rfl

/-- Witness for C6's storage conjunct at a concrete registration. -/
theorem claim6_witness :
    getRouteAt demo0.config (trieOf usersLit "GET")
      (normalizeParts "/users/search".toList) =
      some (routeFor demo0 "GET" "/users/search".toList 1 []) :=
  claim6_middleware_compile.2.2.2.1 Nat demo0 usersLit "GET"
    "/users/search".toList 1 [] rfl

def slashR : TrieRouter Nat := addD demo0 "GET" "/a//b/" 3

/-- C7: for every raw path string, the non-empty segment sequence consumed
by `Find`'s in-place iteration equals the one `Add` walks, so a registered
path is matched under the same raw string and under any variant that
differs only in redundant slashes (the resolved route depends only on that
segment sequence). -/
theorem claim7_normalization :
    (∀ path : List Char, findSegments path = insertSegments path)
    ∧ (∀ (H : Type) (r : TrieRouter H) (method : String) (p1 p2 : List Char)
        (ctx1 ctx2 : List Param), findSegments p1 = findSegments p2 →
        (Find r method p1 ctx1).1 = (Find r method p2 ctx2).1)
    ∧ Add demo0 "GET" "/a//b/".toList 3 [] = .ok slashR
    ∧ (Find slashR "GET" "a/b".toList []).1 =
        .ok ⟨"GET", "/a//b/".toList, some 3, []⟩
    ∧ (Find slashR "GET" "//a//b//".toList []).1 =
        .ok ⟨"GET", "/a//b/".toList, some 3, []⟩ := by
  refine ⟨findSegments_eq_insertSegments,
    fun H r method p1 p2 ctx1 ctx2 h =>
      Find_fst_of_segments r method p1 p2 ctx1 ctx2 h, rfl, ?_, ?_⟩
  all_goals rw [Find_eq_FindParts]
  all_goals rfl

/-- Witness for C7's slash-variant conjunct on a concrete router. -/
theorem claim7_witness :
    (Find slashR "GET" "a/b".toList []).1 =
      (Find slashR "GET" "/a/b".toList []).1 :=
  claim7_normalization.2.1 Nat slashR "GET" "a/b".toList "/a/b".toList [] []
    (by rw [findSegments_eq, findSegments_eq]; rfl)

def stuckR : TrieRouter Nat := addD demo0 "GET" "/users/:id/posts" 4

def deadR : TrieRouter Nat := addD demo0 "GET" "/files/*path/extra" 5

/-- C8: the walk only appends to the param sink, so entries written before
a failed lookup stay in the returned sink: a param capture survives a later
stuck walk, and a wildcard capture survives discovering that the wildcard
child carries no handler (both mid-walk and at end of segments). -/
theorem claim8_sink_not_rolled_back :
    (∀ (H : Type) (r : TrieRouter H) (method : String) (p : List Char)
        (ctx : List Param), ∃ t, (Find r method p ctx).2 = ctx ++ t)
    ∧ Add demo0 "GET" "/users/:id/posts".toList 4 [] = .ok stuckR
    ∧ Find stuckR "GET" "/users/7/comments".toList [] =
        (.error routeNotFoundMsg, [⟨"id".toList, "7".toList⟩])
    ∧ Add demo0 "GET" "/files/*path/extra".toList 5 [] = .ok deadR
    ∧ Find deadR "GET" "/files/x".toList [] =
        (.error routeNotFoundMsg, [⟨"path".toList, "x".toList⟩])
    ∧ Find deadR "GET" "/files".toList [] =
        (.error routeNotFoundMsg, [⟨"path".toList, []⟩]) := by
  refine ⟨?_, rfl, ?_, rfl, ?_, ?_⟩
  · intro H r method p ctx
    rw [Find_eq_FindParts]
    unfold FindParts
    cases alistGet r.root method with
    | none => exact ⟨[], by simp⟩
    | some n => exact findParts_params_mono _ n ctx
  all_goals rw [Find_eq_FindParts]
  all_goals rfl

/-- The terminal node holding the route registered past the wildcard in
`/files/*path/extra`. -/
def deadTerminalNode : Node Nat :=
  .mk [] none [] none [] ⟨"GET", "/files/*path/extra".toList, some 5, []⟩

/-- The wildcard child of the `files` node: no route of its own, one static
child `extra` (unreachable at lookup time). -/
def deadCatchNode : Node Nat :=
  .mk [("extra".toList, deadTerminalNode)] none [] none [] (emptyRoute Nat)

def deadFilesNode : Node Nat :=
  .mk [] none [] (some deadCatchNode) "path".toList (emptyRoute Nat)

def deadRootNode : Node Nat :=
  .mk [("files".toList, deadFilesNode)] none [] none [] (emptyRoute Nat)

theorem dead_files_loop :
    ∀ (parts : List (List Char)) (ctx : List Param),
      (findParts deadFilesNode parts ctx).1.isOk = false := by
  intro parts
  induction parts with
  | nil => intro ctx; rfl
  | cons part remaining ih =>
    intro ctx
    rw [findParts_cons]
    by_cases hp : part = []
    · rw [if_pos hp]
      exact ih ctx
    · rw [if_neg hp]
      rfl

theorem dead_root_loop :
    ∀ (parts : List (List Char)) (ctx : List Param),
      (findParts deadRootNode parts ctx).1.isOk = false := by
  intro parts
  induction parts with
  | nil => intro ctx; rfl
  | cons part remaining ih =>
    intro ctx
    rw [findParts_cons]
    by_cases hp : part = []
    · rw [if_pos hp]
      exact ih ctx
    · rw [if_neg hp]
      have hal : alistGet deadRootNode.children part =
          if "files".toList = part then some deadFilesNode else none := rfl
      rw [hal]
      by_cases hf : "files".toList = part
      · rw [if_pos hf]
        exact dead_files_loop remaining ctx
      · rw [if_neg hf]
        rfl

/-- C9: registering `/files/*path/extra` succeeds and stores a route on the
node beneath the wildcard child, but the wildcard branch of `Find` returns
only the wildcard child's own route and never descends further, and here
the wildcard child has no handler — so this router matches nothing at all:
the registration is permanently unreachable dead code. -/
theorem claim9_dead_wildcard_descendant :
    Add demo0 "GET" "/files/*path/extra".toList 5 [] = .ok deadR
    ∧ trieOf deadR "GET" = deadRootNode
    ∧ deadFilesNode.catchAllNode = some deadCatchNode
    ∧ deadCatchNode.route.handler = none
    ∧ alistGet deadCatchNode.children "extra".toList = some deadTerminalNode
    ∧ deadTerminalNode.route.handler = some 5
    ∧ getRouteAt DefaultTrieRouterConfig deadRootNode
        (normalizeParts "/files/*path/extra".toList) =
        some ⟨"GET", "/files/*path/extra".toList, some 5, []⟩
    ∧ (∀ (H : Type) (n ca : Node H) (part rest : List Char)
        (ctx : List Param),
        (findCatchAll n ca part rest ctx).1 =
          if ca.route.handler.isSome then .ok ca.route
          else .error routeNotFoundMsg)
    ∧ (∀ (method : String) (path : List Char) (ctx : List Param),
        (Find deadR method path ctx).1.isOk = false) := by
  refine ⟨rfl, rfl, rfl, rfl, rfl, rfl, rfl,
    fun H n ca part rest ctx => findCatchAll_fst n ca part rest ctx, ?_⟩
  intro method path ctx
  rw [Find_eq_FindParts]
  unfold FindParts
  have hroot : deadR.root = [("GET", deadRootNode)] := rfl
  rw [hroot]
  have hal : alistGet [("GET", deadRootNode)] method =
      if "GET" = method then some deadRootNode else none := rfl
  rw [hal]
  by_cases hm : "GET" = method
  · rw [if_pos hm]
    exact dead_root_loop _ ctx
  · rw [if_neg hm]
    rfl

def dupNameR : TrieRouter Nat := addD demo0 "GET" "/a/:id/b/:id" 9

/-- C10: `AddParam` always appends without deduplication, preserving
insertion order; `PathParam` returns the first matching entry; a template
capturing the same name at two depths is accepted by `Add` (the two names
live on different nodes), a match yields both entries in path order, and
`PathParam` resolves to the shallowest one. -/
theorem claim10_sink_first_wins :
    (∀ (ps : List Param) (k v : List Char), AddParam ps k v = ps ++ [⟨k, v⟩])
    ∧ (∀ (name v : List Char) (rest : List Param),
        PathParam (⟨name, v⟩ :: rest) name = v)
    ∧ (∀ (ps qs : List Param) (name : List Char),
        (∃ p ∈ ps, p.key = name) →
        PathParam (ps ++ qs) name = PathParam ps name)
    ∧ Add demo0 "GET" "/a/:id/b/:id".toList 9 [] = .ok dupNameR
    ∧ Find dupNameR "GET" "/a/1/b/2".toList [] =
        (.ok ⟨"GET", "/a/:id/b/:id".toList, some 9, []⟩,
          [⟨"id".toList, "1".toList⟩, ⟨"id".toList, "2".toList⟩])
    ∧ PathParam [⟨"id".toList, "1".toList⟩, ⟨"id".toList, "2".toList⟩]
        "id".toList = "1".toList := by
  refine ⟨fun ps k v => rfl, ?_, ?_, rfl, ?_, by decide⟩
  · intro name v rest
    simp [PathParam]
  · intro ps qs name h
    induction ps with
    | nil =>
      obtain ⟨p, hp, _⟩ := h
      exact absurd hp (List.not_mem_nil p)
    | cons p rest ih =>
      rw [List.cons_append]
      by_cases hk : p.key = name
      · simp [PathParam, hk]
      · obtain ⟨q, hq, hqk⟩ := h
        rcases List.mem_cons.mp hq with h1 | h2
        · subst h1
          exact absurd hqk hk
        · simp only [PathParam, if_neg hk]
          exact ih ⟨q, h2, hqk⟩
  · rw [Find_eq_FindParts]
    rfl

/-- Witness for C10's first-wins conjunct on a two-entry sink. -/
theorem claim10_witness :
    PathParam ([⟨['k'], ['1']⟩] ++ [⟨['k'], ['2']⟩]) ['k'] =
      PathParam [⟨['k'], ['1']⟩] ['k'] :=
  claim10_sink_first_wins.2.2.1 [⟨['k'], ['1']⟩] [⟨['k'], ['2']⟩] ['k']
    ⟨⟨['k'], ['1']⟩, by simp, rfl⟩

end Amaro
